import Mathlib

set_option maxHeartbeats 1000000
set_option maxRecDepth 4000

/-!
Shallow embedding of the `iamrole` reconciliation package of the
ihoegen/iam-role-manager repository.

The repository ships several near-identical client variants.  Following the
specification's design notes, the struct-scoped client with the corrected
pagination logic (the `IAMClient` methods) is embedded for the create/sync
paths and the paginated listings, while the teardown path embeds the
function-based `DeleteIAMRole`/`removeInlinePolicies` that the shipped
`Reconcile` function invokes.

The remote AWS service is modelled by an `Env` record fixing the outcome of
every remote call: `Option` data for calls that may fail wholesale, and
`String → Bool` success predicates for per-item mutations.  Listing endpoints
are modelled by the sequence of pages the service hands out: a request
consumes the next page; an exhausted sequence models a request failure.
Every function returns, next to its result, the trace of remote calls it
issued, in order.
-/

/-- Mirror of `InlinePolicySpec` from the v1beta1 types: a named inline policy
document. -/
structure InlinePolicySpec where
  name : String
  value : String
deriving DecidableEq

/-- Mirror of `IAMRoleSpec` from the v1beta1 types. -/
structure IAMRoleSpec where
  description : String
  path : String
  maxSessionDuration : Int
  trustRelationship : String
  inlinePolicy : List InlinePolicySpec
  policies : List String
deriving DecidableEq

/-- Mirror of `IAMRoleStatus` from the v1beta1 types. -/
structure IAMRoleStatus where
  arn : String
  roleID : String
deriving DecidableEq

/-- Mirror of `IAMRole`: the desired-state document (name, spec, status). -/
structure IAMRole where
  name : String
  spec : IAMRoleSpec
  status : IAMRoleStatus
deriving DecidableEq

/-- The fields of the remote `iam.Role` that `SyncIAMRole` dereferences. -/
structure AwsRole where
  description : String
  maxSessionDuration : Int
  assumeRolePolicyDocument : String
deriving DecidableEq

/-- Mirror of `iam.AttachedPolicy`: canonical identifier plus short name. -/
structure AttachedPolicy where
  policyArn : String
  policyName : String
deriving DecidableEq

/-- One page of a paginated listing response: the items, the truncation flag
and the continuation marker supplied by the service. -/
structure Page (α : Type) where
  items : List α
  isTruncated : Bool
  marker : String
deriving DecidableEq

/-- A remote call issued by the client, with its arguments.  The `marker`
argument of the listing calls is `none` when the request carries no
continuation marker. -/
inductive Call where
  | getRole (roleName : String)
  | updateRoleDescription (roleName description : String)
  | updateRole (roleName : String) (maxSessionDuration : Int)
  | updateAssumeRolePolicy (roleName policyDocument : String)
  | putRolePolicy (roleName policyName policyDocument : String)
  | listRolePolicies (roleName : String) (marker : Option String)
  | deleteRolePolicy (roleName policyName : String)
  | getCallerIdentity
  | attachRolePolicy (roleName policyArn : String)
  | listAttachedRolePolicies (roleName : String) (marker : Option String)
  | detachRolePolicy (roleName policyArn : String)
  | createRole (roleName : String)
  | deleteRole (roleName : String)
deriving DecidableEq

/-- Errors returned by the embedded functions.  `aggregateErr` models the
`fmt.Errorf("Errors occurred ...: %v", errors)` aggregation of a collected
error list. -/
inductive Err where
  | getRoleErr
  | updateRoleDescriptionErr
  | updateRoleErr
  | updateAssumeRolePolicyErr
  | putRolePolicyErr (policyName : String)
  | deleteRolePolicyErr (policyName : String)
  | resolutionErr
  | attachRolePolicyErr (policyArn : String)
  | detachRolePolicyErr (policyArn : String)
  | listInlineErr
  | listAttachedErr
  | createRoleErr
  | deleteRoleErr
  | storeUpdateErr
  | aggregateErr (errs : List Err)

/-- Fixed outcomes of every remote call: the environment one reconcile pass
runs against. -/
structure Env where
  getRole : Option AwsRole
  updateRoleDescriptionOk : Bool
  updateRoleOk : Bool
  updateAssumeRolePolicyOk : Bool
  putRolePolicyOk : String → Bool
  deleteRolePolicyOk : String → Bool
  inlinePages : List (Page String)
  attachedPages : List (Page AttachedPolicy)
  callerIdentity : Option String
  attachRolePolicyOk : String → Bool
  detachRolePolicyOk : String → Bool
  createRole : Option (String × String)
  deleteRoleOk : Bool
  storeUpdateOk : Bool

/-- Mirror of Go `strings.Contains s sub`: `sub` occurs contiguously inside
`s`. -/
def goContains (s sub : String) : Bool := decide (sub.data <:+: s.data)

/-- Mirror of `isArn` (identical in every variant):
`strings.Contains(policy, "arn:aws:iam")`. -/
def isArn (policy : String) : Bool := goContains policy "arn:aws:iam"

/-- The marker actually attached to a listing request: the client only sends
the `Marker` field when the marker string is non-empty. -/
def markerInput (m : String) : Option String := if m = "" then none else some m

/-- Mirror of `listInlinePolicies`/`innerListInlinePolicies` from the
struct-scoped client: issue a request with the current marker (first call uses
the empty marker, hence no `Marker` field), append the returned names, and
re-request with the returned marker while the page is truncated.  The first
component is `none` when a request fails (page sequence exhausted); the second
component is the sequence of markers attached to the issued requests. -/
def listInlinePoliciesAux : List (Page String) → String → Option (List String) × List (Option String)
  | [], m => (none, [markerInput m])
  | p :: rest, m =>
    if p.isTruncated then
      let r := listInlinePoliciesAux rest p.marker
      (r.1.map (fun its => p.items ++ its), markerInput m :: r.2)
    else
      (some p.items, [markerInput m])

/-- Paginate over inline policies: first pass without a marker, then follow
continuation markers while truncated. -/
def listInlinePolicies (pages : List (Page String)) : Option (List String) × List (Option String) :=
  listInlinePoliciesAux pages ""

/-- Mirror of `listAttachedPolicies`/`innerListAttachedPolicies` from the
struct-scoped client; same protocol as the inline listing. -/
def listAttachedPoliciesAux : List (Page AttachedPolicy) → String → Option (List AttachedPolicy) × List (Option String)
  | [], m => (none, [markerInput m])
  | p :: rest, m =>
    if p.isTruncated then
      let r := listAttachedPoliciesAux rest p.marker
      (r.1.map (fun its => p.items ++ its), markerInput m :: r.2)
    else
      (some p.items, [markerInput m])

/-- Paginate over attached policies: first pass without a marker, then follow
continuation markers while truncated. -/
def listAttachedPolicies (pages : List (Page AttachedPolicy)) : Option (List AttachedPolicy) × List (Option String) :=
  listAttachedPoliciesAux pages ""

/-- Modelled from the spec: the list-membership helper `in` used by
`SyncIAMRole` is not present under the provided sources (only its call sites
are); the spec describes it as matching a string against "any entry in the
desired reference list". -/
def inList (arr : List String) (s : String) : Bool :=
  match arr with
  | [] => false
  | x :: xs => x == s || inList xs s

/-- Mirror of `getArn`: a reference that `isArn` accepts is returned unchanged
with no identity call; otherwise the caller identity is queried and
`arn:aws:iam::ACCOUNT:policy/NAME` is synthesized, or `("", err)` is returned
when the identity query fails.  The first component mirrors the Go
`(string, error)` pair; the second is the trace of identity-endpoint calls. -/
def getArn (env : Env) (policyName : String) : (String × Option Err) × List Call :=
  if isArn policyName then ((policyName, none), [])
  else
    match env.callerIdentity with
    | none => (("", some Err.resolutionErr), [Call.getCallerIdentity])
    | some account =>
      (("arn:aws:iam::" ++ account ++ ":policy/" ++ policyName, none), [Call.getCallerIdentity])

/-- Loop body of `createInlinePolicies`: put every inline policy of the spec,
collecting the failures. -/
def createInlinePoliciesLoop (env : Env) (roleName : String) : List InlinePolicySpec → List Err × List Call
  | [] => ([], [])
  | p :: rest =>
    let e := if env.putRolePolicyOk p.name then ([] : List Err) else [Err.putRolePolicyErr p.name]
    let r := createInlinePoliciesLoop env roleName rest
    (e ++ r.1, Call.putRolePolicy roleName p.name p.value :: r.2)

/-- Mirror of `createInlinePolicies`: unconditionally put every entry of
`spec.inlinePolicy`, collect per-item failures, and aggregate them. -/
def createInlinePolicies (env : Env) (role : IAMRole) : Option Err × List Call :=
  let r := createInlinePoliciesLoop env role.name role.spec.inlinePolicy
  (if r.1.isEmpty then none else some (Err.aggregateErr r.1), r.2)

/-- Loop body of `attachPolicies`: resolve each reference with `getArn`; a
resolution failure returns immediately (first component), otherwise the attach
call is issued and its failure collected (second component). -/
def attachPoliciesLoop (env : Env) (roleName : String) : List String → Option Err × List Err × List Call
  | [] => (none, [], [])
  | policy :: rest =>
    let g := getArn env policy
    match g.1.2 with
    | some e => (some e, [], g.2)
    | none =>
      let e := if env.attachRolePolicyOk g.1.1 then ([] : List Err) else [Err.attachRolePolicyErr g.1.1]
      let r := attachPoliciesLoop env roleName rest
      (r.1, e ++ r.2.1, g.2 ++ Call.attachRolePolicy roleName g.1.1 :: r.2.2)

/-- Mirror of `attachPolicies`: on a resolution failure the error is returned
as-is (the collected attach failures are dropped, as in the Go early
`return err`); otherwise collected attach failures are aggregated. -/
def attachPolicies (env : Env) (role : IAMRole) : Option Err × List Call :=
  let r := attachPoliciesLoop env role.name role.spec.policies
  match r.1 with
  | some e => (some e, r.2.2)
  | none => (if r.2.1.isEmpty then none else some (Err.aggregateErr r.2.1), r.2.2)

/-- Third conditional update block of `SyncIAMRole`: update the assume-role
policy document only when it differs byte-for-byte from the spec. -/
def updateTrustStep (env : Env) (role : IAMRole) (awsRole : AwsRole) (acc : List Call) : Option Err × List Call :=
  if awsRole.assumeRolePolicyDocument = role.spec.trustRelationship then (none, acc)
  else
    if env.updateAssumeRolePolicyOk then
      (none, acc ++ [Call.updateAssumeRolePolicy role.name role.spec.trustRelationship])
    else
      (some Err.updateAssumeRolePolicyErr, acc ++ [Call.updateAssumeRolePolicy role.name role.spec.trustRelationship])

/-- Second conditional update block of `SyncIAMRole`: update the max session
duration only when it differs from the spec. -/
def updateDurationStep (env : Env) (role : IAMRole) (awsRole : AwsRole) (acc : List Call) : Option Err × List Call :=
  if awsRole.maxSessionDuration = role.spec.maxSessionDuration then updateTrustStep env role awsRole acc
  else
    if env.updateRoleOk then
      updateTrustStep env role awsRole (acc ++ [Call.updateRole role.name role.spec.maxSessionDuration])
    else
      (some Err.updateRoleErr, acc ++ [Call.updateRole role.name role.spec.maxSessionDuration])

/-- First conditional update block of `SyncIAMRole`: update the description
only when it differs from the spec. -/
def updateDescriptionStep (env : Env) (role : IAMRole) (awsRole : AwsRole) (acc : List Call) : Option Err × List Call :=
  if awsRole.description = role.spec.description then updateDurationStep env role awsRole acc
  else
    if env.updateRoleDescriptionOk then
      updateDurationStep env role awsRole (acc ++ [Call.updateRoleDescription role.name role.spec.description])
    else
      (some Err.updateRoleDescriptionErr, acc ++ [Call.updateRoleDescription role.name role.spec.description])

/-- The three conditional field updates of `SyncIAMRole`, in source order
(description, duration, trust document); a failing update aborts. -/
def syncFieldUpdates (env : Env) (role : IAMRole) (awsRole : AwsRole) : Option Err × List Call :=
  updateDescriptionStep env role awsRole []

/-- Everything `SyncIAMRole` does after the field updates: put all spec inline
policies, list inline policies and delete the unrequested ones (failures
collected), attach all spec references (failure collected), list attached
policies and detach those matching neither by canonical identifier nor by
short name (failures collected), and aggregate the collected failures. -/
def syncPolicies (env : Env) (role : IAMRole) : Option Err × List Call :=
  let roleName := role.name
  let cres := createInlinePolicies env role
  match cres.1 with
  | some e => (some e, cres.2)
  | none =>
    let lres := listInlinePolicies env.inlinePages
    let lcalls := lres.2.map (Call.listRolePolicies roleName)
    match lres.1 with
    | none => (some Err.listInlineErr, cres.2 ++ lcalls)
    | some inlinePolicies =>
      let requestedInlinePolicies := role.spec.inlinePolicy.map InlinePolicySpec.name
      let toDelete := inlinePolicies.filter fun p => !(inList requestedInlinePolicies p)
      let dcalls := toDelete.map (Call.deleteRolePolicy roleName)
      let derrs := (toDelete.filter fun p => !(env.deleteRolePolicyOk p)).map Err.deleteRolePolicyErr
      let ares := attachPolicies env role
      let aerrs := match ares.1 with | some e => [e] | none => ([] : List Err)
      let lares := listAttachedPolicies env.attachedPages
      let lacalls := lares.2.map (Call.listAttachedRolePolicies roleName)
      match lares.1 with
      | none => (some Err.listAttachedErr, cres.2 ++ lcalls ++ dcalls ++ ares.2 ++ lacalls)
      | some attachedPolicies =>
        let toDetach := attachedPolicies.filter fun p =>
          !(inList role.spec.policies p.policyArn) && !(inList role.spec.policies p.policyName)
        let detcalls := toDetach.map fun p => Call.detachRolePolicy roleName p.policyArn
        let deterrs := (toDetach.filter fun p => !(env.detachRolePolicyOk p.policyArn)).map
          fun p => Err.detachRolePolicyErr p.policyArn
        let allErrs := derrs ++ aerrs ++ deterrs
        (if allErrs.isEmpty then none else some (Err.aggregateErr allErrs),
         cres.2 ++ lcalls ++ dcalls ++ ares.2 ++ lacalls ++ detcalls)

/-- Mirror of the struct-scoped `SyncIAMRole`: read the remote role, apply the
three conditional field updates (failures abort), then synchronize inline and
attached policies. -/
def SyncIAMRole (env : Env) (role : IAMRole) : Option Err × List Call :=
  match env.getRole with
  | none => (some Err.getRoleErr, [Call.getRole role.name])
  | some awsRole =>
    let fres := syncFieldUpdates env role awsRole
    match fres.1 with
    | some e => (some e, Call.getRole role.name :: fres.2)
    | none =>
      let sres := syncPolicies env role
      (sres.1, Call.getRole role.name :: (fres.2 ++ sres.2))

/-- Mirror of the function-based `removeInlinePolicies` used by the shipped
teardown path: one unpaginated listing request (it reads the first page only),
then delete every listed policy, collecting and aggregating failures. -/
def removeInlinePolicies (env : Env) (role : IAMRole) : Option Err × List Call :=
  let roleName := role.name
  match env.inlinePages with
  | [] => (some Err.listInlineErr, [Call.listRolePolicies roleName none])
  | page :: _ =>
    let dcalls := page.items.map (Call.deleteRolePolicy roleName)
    let derrs := (page.items.filter fun p => !(env.deleteRolePolicyOk p)).map Err.deleteRolePolicyErr
    (if derrs.isEmpty then none else some (Err.aggregateErr derrs),
     Call.listRolePolicies roleName none :: dcalls)

/-- Mirror of the function-based `DeleteIAMRole` invoked by `Reconcile` on
teardown: remove inline policies (its error is overwritten, hence discarded,
exactly as in the source), list attached policies with one unpaginated
request, detach every listed policy collecting failures, always issue the
role deletion, and return the aggregated detach failures when any occurred,
otherwise the deletion outcome. -/
def DeleteIAMRole (env : Env) (role : IAMRole) : Option Err × List Call :=
  let roleName := role.name
  let rres := removeInlinePolicies env role
  match env.attachedPages with
  | [] => (some Err.listAttachedErr, rres.2 ++ [Call.listAttachedRolePolicies roleName none])
  | page :: _ =>
    let detcalls := page.items.map fun q => Call.detachRolePolicy roleName q.policyArn
    let deterrs := (page.items.filter fun q => !(env.detachRolePolicyOk q.policyArn)).map
      fun q => Err.detachRolePolicyErr q.policyArn
    let dres : Option Err := if env.deleteRoleOk then none else some Err.deleteRoleErr
    ((if deterrs.isEmpty then dres else some (Err.aggregateErr deterrs)),
     rres.2 ++ [Call.listAttachedRolePolicies roleName none] ++ detcalls ++ [Call.deleteRole roleName])

/-- Mirror of `CreateIAMRole`: create the role (failure aborts), record the
returned identifiers into the status, then put all inline policies and attach
all referenced managed policies. -/
def CreateIAMRole (env : Env) (role : IAMRole) : Option Err × IAMRole × List Call :=
  match env.createRole with
  | none => (some Err.createRoleErr, role, [Call.createRole role.name])
  | some out =>
    let role2 := { role with status := { arn := out.1, roleID := out.2 } }
    let c := createInlinePolicies env role2
    match c.1 with
    | some e => (some e, role2, Call.createRole role.name :: c.2)
    | none =>
      let a := attachPolicies env role2
      (a.1, role2, Call.createRole role.name :: (c.2 ++ a.2))

/-- Outcome of one `Reconcile` invocation: surfaced error, resulting
desired-state document, whether its status was persisted back to the store,
and the remote-call trace. -/
structure ReconcileOutcome where
  err : Option Err
  role : IAMRole
  storeUpdated : Bool
  calls : List Call

/-- Mirror of `Reconcile`: a request for an absent document triggers teardown;
otherwise the existence check (a successful role read) selects sync, and an
absent remote role selects create followed, only on success, by the store
update persisting the status. -/
def Reconcile (env : Env) (found : Bool) (role : IAMRole) : ReconcileOutcome :=
  if found = false then
    let d := DeleteIAMRole env role
    { err := d.1, role := role, storeUpdated := false, calls := d.2 }
  else
    if env.getRole.isSome then
      let s := SyncIAMRole env role
      { err := s.1, role := role, storeUpdated := false, calls := s.2 }
    else
      let c := CreateIAMRole env role
      match c.1 with
      | some e => { err := some e, role := c.2.1, storeUpdated := false, calls := c.2.2 }
      | none =>
        { err := if env.storeUpdateOk then none else some Err.storeUpdateErr,
          role := c.2.1, storeUpdated := true, calls := c.2.2 }

/-- Whether a call is one of the three role-field updates. -/
def Call.isFieldUpdate : Call → Bool
  | .updateRoleDescription _ _ => true
  | .updateRole _ _ => true
  | .updateAssumeRolePolicy _ _ => true
  | _ => false

/-- Whether a call mutates remote policy or role state (as opposed to reads
and field updates). -/
def Call.mutates : Call → Bool
  | .putRolePolicy _ _ _ => true
  | .deleteRolePolicy _ _ => true
  | .attachRolePolicy _ _ => true
  | .detachRolePolicy _ _ => true
  | .createRole _ => true
  | .deleteRole _ => true
  | _ => false

/-- Whether a call is a managed-policy detachment. -/
def Call.isDetach : Call → Bool
  | .detachRolePolicy _ _ => true
  | _ => false

/-- Whether a call is an inline-policy deletion. -/
def Call.isInlineDelete : Call → Bool
  | .deleteRolePolicy _ _ => true
  | _ => false

/-- Unfolding lemma: reading a page sequence whose front pages are all
truncated and whose final page is not returns the concatenation of all pages'
items, issuing one request per page whose marker is the previous page's
marker exactly when that marker is non-empty. -/
theorem listInlinePoliciesAux_complete (last : Page String) (hl : last.isTruncated = false) :
    ∀ (front : List (Page String)) (m : String), (∀ p ∈ front, p.isTruncated = true) →
      listInlinePoliciesAux (front ++ [last]) m =
        (some (((front ++ [last]).map Page.items).flatten),
         markerInput m :: front.map fun p => markerInput p.marker) := by
  intro front
  induction front with
  | nil =>
    intro m _
    simp [listInlinePoliciesAux, hl]
  | cons p front ih =>
    intro m hf
    have hp : p.isTruncated = true := hf p (by simp)
    have hrest : ∀ q ∈ front, q.isTruncated = true := fun q hq => hf q (by simp [hq])
    simp [listInlinePoliciesAux, hp, ih p.marker hrest]

/-- Unfolding lemma for the attached-policy pagination, identical in structure
to the inline one. -/
theorem listAttachedPoliciesAux_complete (last : Page AttachedPolicy) (hl : last.isTruncated = false) :
    ∀ (front : List (Page AttachedPolicy)) (m : String), (∀ p ∈ front, p.isTruncated = true) →
      listAttachedPoliciesAux (front ++ [last]) m =
        (some (((front ++ [last]).map Page.items).flatten),
         markerInput m :: front.map fun p => markerInput p.marker) := by
  intro front
  induction front with
  | nil =>
    intro m _
    simp [listAttachedPoliciesAux, hl]
  | cons p front ih =>
    intro m hf
    have hp : p.isTruncated = true := hf p (by simp)
    have hrest : ∀ q ∈ front, q.isTruncated = true := fun q hq => hf q (by simp [hq])
    simp [listAttachedPoliciesAux, hp, ih p.marker hrest]

/-- C1: for every sequence of listing pages returned by the remote service
(every page before the last truncated, the last one not), both paginated
listing operations return the concatenation of all pages' items in page
order; the first request carries no continuation marker, each subsequent
request carries the previous page's marker exactly when that truncated page
supplied a non-empty one, and exactly one request per page is issued, so no
continuation request follows the not-truncated page. -/
theorem pagination_reads_all_pages
    (front : List (Page String)) (last : Page String)
    (afront : List (Page AttachedPolicy)) (alast : Page AttachedPolicy)
    (hf : ∀ p ∈ front, p.isTruncated = true) (hl : last.isTruncated = false)
    (haf : ∀ p ∈ afront, p.isTruncated = true) (hal : alast.isTruncated = false) :
    listInlinePolicies (front ++ [last]) =
      (some (((front ++ [last]).map Page.items).flatten),
       none :: front.map fun p => markerInput p.marker) ∧
    (front.map fun p => markerInput p.marker).length + 1 = (front ++ [last]).length ∧
    listAttachedPolicies (afront ++ [alast]) =
      (some (((afront ++ [alast]).map Page.items).flatten),
       none :: afront.map fun p => markerInput p.marker) ∧
    (afront.map fun p => markerInput p.marker).length + 1 = (afront ++ [alast]).length := by
  refine ⟨?_, by simp, ?_, by simp⟩
  · have h := listInlinePoliciesAux_complete last hl front "" hf
    simpa [listInlinePolicies, markerInput] using h
  · have h := listAttachedPoliciesAux_complete alast hal afront "" haf
    simpa [listAttachedPolicies, markerInput] using h

/-- Witness for C1: a two-page inline listing and a two-page attached listing,
evaluated concretely. -/
theorem pagination_reads_all_pages_witness :
    listInlinePolicies [⟨["a"], true, "m1"⟩, ⟨["b"], false, ""⟩] =
      (some ["a", "b"], [none, some "m1"]) ∧
    listAttachedPolicies [⟨[⟨"arn1", "n1"⟩], true, "k1"⟩, ⟨[⟨"arn2", "n2"⟩], false, ""⟩] =
      (some [⟨"arn1", "n1"⟩, ⟨"arn2", "n2"⟩], [none, some "k1"]) := by
  have h := pagination_reads_all_pages
    [⟨["a"], true, "m1"⟩] ⟨["b"], false, ""⟩
    [⟨[⟨"arn1", "n1"⟩], true, "k1"⟩] ⟨[⟨"arn2", "n2"⟩], false, ""⟩
    (by simp) rfl (by simp) rfl
  exact ⟨h.1, h.2.2.1⟩

/-- A resolver environment whose identity endpoint reports account `123`. -/
def envResolver : Env :=
  { getRole := none, updateRoleDescriptionOk := true, updateRoleOk := true,
    updateAssumeRolePolicyOk := true, putRolePolicyOk := fun _ => true,
    deleteRolePolicyOk := fun _ => true, inlinePages := [], attachedPages := [],
    callerIdentity := some "123", attachRolePolicyOk := fun _ => true,
    detachRolePolicyOk := fun _ => true, createRole := none, deleteRoleOk := true,
    storeUpdateOk := true }

/-- A resolver environment whose identity endpoint fails. -/
def envNoIdentity : Env := { envResolver with callerIdentity := none }

/-- C2: a reference matching the canonical identifier shape (per the spec, a
string containing the fixed service-namespace marker, which is exactly what
`isArn` tests) is returned unchanged with zero identity-endpoint calls; any
other reference triggers exactly one identity query and is expanded to
`arn:aws:iam::ACCOUNT:policy/REF`, and when the identity query fails `getArn`
returns an empty string together with the resolution error. -/
theorem getArn_resolves (env : Env) (ref account : String) :
    (isArn ref = true → getArn env ref = ((ref, none), [])) ∧
    (isArn ref = false → env.callerIdentity = some account →
      getArn env ref =
        (("arn:aws:iam::" ++ account ++ ":policy/" ++ ref, none), [Call.getCallerIdentity])) ∧
    (isArn ref = false → env.callerIdentity = none →
      getArn env ref = (("", some Err.resolutionErr), [Call.getCallerIdentity])) := by
  refine ⟨fun h => ?_, fun h hid => ?_, fun h hid => ?_⟩
  · simp [getArn, h]
  · simp [getArn, h, hid]
  · simp [getArn, h, hid]

/-- Witness for C2: a canonical-shaped reference is returned untouched with no
identity call, and a bare short name is expanded through the account
lookup. -/
theorem getArn_resolves_witness :
    getArn envResolver "arn:aws:iam::111:policy/existing" =
      (("arn:aws:iam::111:policy/existing", none), []) ∧
    getArn envResolver "MyPolicy" =
      (("arn:aws:iam::123:policy/MyPolicy", none), [Call.getCallerIdentity]) ∧
    getArn envNoIdentity "MyPolicy" =
      (("", some Err.resolutionErr), [Call.getCallerIdentity]) := by
  refine ⟨?_, ?_, ?_⟩
  · exact (getArn_resolves envResolver "arn:aws:iam::111:policy/existing" "123").1 (by decide)
  · exact (getArn_resolves envResolver "MyPolicy" "123").2.1 (by decide) rfl
  · exact (getArn_resolves envNoIdentity "MyPolicy" "123").2.2 (by decide) rfl

/-- C10: the canonical-identifier test of `getArn` is a substring check: every
reference containing `"arn:aws:iam"` anywhere — well-formed or not — is
returned unchanged with no identity call, and every reference not containing
that substring is expanded via exactly one identity-endpoint call. -/
theorem getArn_substring_check (env : Env) (ref : String) :
    isArn ref = goContains ref "arn:aws:iam" ∧
    (goContains ref "arn:aws:iam" = true → getArn env ref = ((ref, none), [])) ∧
    (goContains ref "arn:aws:iam" = false → (getArn env ref).2 = [Call.getCallerIdentity]) := by
  refine ⟨rfl, fun h => ?_, fun h => ?_⟩
  · simp [getArn, isArn, h]
  · cases hid : env.callerIdentity <;> simp [getArn, isArn, h, hid]

/-- Witness for C10: a short name that merely embeds the substring (not a
well-formed identifier) is passed through untouched with no identity call,
while a plain short name is expanded. -/
theorem getArn_substring_check_witness :
    getArn envResolver "my-arn:aws:iam-lookalike" =
      (("my-arn:aws:iam-lookalike", none), []) ∧
    (getArn envResolver "plain").2 = [Call.getCallerIdentity] := by
  refine ⟨?_, ?_⟩
  · exact (getArn_substring_check envResolver "my-arn:aws:iam-lookalike").2.1 (by decide)
  · exact (getArn_substring_check envResolver "plain").2.2 (by decide)

/-- Every call issued by `getArn` is an identity-endpoint call. -/
theorem getArn_calls (env : Env) (p : String) :
    ∀ c ∈ (getArn env p).2, c = Call.getCallerIdentity := by
  unfold getArn
  split
  · simp
  · rcases henv : env.callerIdentity with _ | account <;> simp [henv]

/-- Every call issued by the attach loop is an identity query or an attach. -/
theorem attachPoliciesLoop_calls (env : Env) (n : String) :
    ∀ (l : List String), ∀ c ∈ (attachPoliciesLoop env n l).2.2,
      c = Call.getCallerIdentity ∨ ∃ a, c = Call.attachRolePolicy n a := by
  intro l
  induction l with
  | nil => simp [attachPoliciesLoop]
  | cons p rest ih =>
    intro c hc
    rcases hg : (getArn env p).1.2 with _ | e
    · simp only [attachPoliciesLoop, hg] at hc
      rcases List.mem_append.mp hc with h | h
      · exact Or.inl (getArn_calls env p c h)
      · rcases List.mem_cons.mp h with h | h
        · exact Or.inr ⟨(getArn env p).1.1, h⟩
        · exact ih c h
    · simp only [attachPoliciesLoop, hg] at hc
      exact Or.inl (getArn_calls env p c hc)

/-- Every call issued by `attachPolicies` is an identity query or an attach. -/
theorem attachPolicies_calls (env : Env) (role : IAMRole) :
    ∀ c ∈ (attachPolicies env role).2,
      c = Call.getCallerIdentity ∨ ∃ a, c = Call.attachRolePolicy role.name a := by
  intro c hc
  unfold attachPolicies at hc
  rcases h : (attachPoliciesLoop env role.name role.spec.policies).1 with _ | e <;>
    simp only [h] at hc <;>
    [skip; skip] <;>
    exact attachPoliciesLoop_calls env role.name role.spec.policies c hc

/-- A resolution failure stops the attach loop at the failing reference: the
already-resolved references keep their attach calls, the collected attach
failures are dropped and the remaining references are not visited. -/
theorem attachPoliciesLoop_resolution_abort (env : Env) (n : String)
    (hid : env.callerIdentity = none) :
    ∀ (pre : List String) (bad : String) (post : List String),
      (∀ p ∈ pre, isArn p = true) → isArn bad = false →
      attachPoliciesLoop env n (pre ++ bad :: post) =
        (some Err.resolutionErr,
         (pre.filter fun q => !(env.attachRolePolicyOk q)).map Err.attachRolePolicyErr,
         pre.map (Call.attachRolePolicy n) ++ [Call.getCallerIdentity]) := by
  intro pre
  induction pre with
  | nil =>
    intro bad post _ hbad
    simp [attachPoliciesLoop, getArn, hbad, hid]
  | cons p pre ih =>
    intro bad post hpre hbad
    have hp : isArn p = true := hpre p (by simp)
    have hrest : ∀ q ∈ pre, isArn q = true := fun q hq => hpre q (by simp [hq])
    have harn : getArn env p = ((p, none), []) := by simp [getArn, hp]
    have hrec := ih bad post hrest hbad
    simp only [List.cons_append, attachPoliciesLoop, harn, hrec]
    by_cases hok : env.attachRolePolicyOk p = true <;> simp [hok, hrec]

/-- C6 (amended): when resolving a managed-policy reference fails, the whole
attach category stops at that reference: the attach calls of references
resolved earlier in the list have already been issued and stand, the
resolution error is surfaced as the category's result, and the remaining
references in the list are not processed (no further resolution or attach
call). -/
theorem attach_aborts_remaining_on_resolution_failure (env : Env) (role : IAMRole)
    (pre post : List String) (bad : String)
    (hspec : role.spec.policies = pre ++ bad :: post)
    (hpre : ∀ p ∈ pre, isArn p = true)
    (hbad : isArn bad = false)
    (hid : env.callerIdentity = none) :
    attachPolicies env role =
      (some Err.resolutionErr,
       pre.map (Call.attachRolePolicy role.name) ++ [Call.getCallerIdentity]) := by
  unfold attachPolicies
  rw [hspec, attachPoliciesLoop_resolution_abort env role.name hid pre bad post hpre hbad]

/-- Desired-state document with two managed-policy references, a bare short
name followed by a canonical identifier. -/
def roleAttachTwo : IAMRole :=
  { name := "r",
    spec := { description := "", path := "/", maxSessionDuration := 3600,
              trustRelationship := "", inlinePolicy := [],
              policies := ["shortname", "arn:aws:iam::1:policy/q"] },
    status := { arn := "", roleID := "" } }

/-- Counterexample to C6 as stated: with a failing identity endpoint, the
first (short-name) reference fails resolution and `attachPolicies` returns at
once; the remaining canonical reference — which needs no resolution at all —
is never processed: its attach call does not appear in the trace. -/
theorem attach_skips_remaining_counterexample :
    (attachPolicies envNoIdentity roleAttachTwo).1 = some Err.resolutionErr ∧
    (attachPolicies envNoIdentity roleAttachTwo).2 = [Call.getCallerIdentity] ∧
    Call.attachRolePolicy "r" "arn:aws:iam::1:policy/q" ∉
      (attachPolicies envNoIdentity roleAttachTwo).2 := by
  refine ⟨rfl, rfl, by decide⟩

/-- Desired-state document whose reference list has one canonical reference
before and one short name after the failing short name. -/
def roleAttachPre : IAMRole :=
  { roleAttachTwo with
    spec := { roleAttachTwo.spec with
              policies := ["arn:aws:iam::1:policy/a", "bad", "post1"] } }

/-- Witness for the amended C6: the canonical reference before the failing one
keeps its attach call, the failing short name costs one identity call, and the
trailing reference is never visited. -/
theorem attach_aborts_remaining_witness :
    attachPolicies envNoIdentity roleAttachPre =
      (some Err.resolutionErr,
       [Call.attachRolePolicy "r" "arn:aws:iam::1:policy/a", Call.getCallerIdentity]) := by
  have h := attach_aborts_remaining_on_resolution_failure envNoIdentity roleAttachPre
    ["arn:aws:iam::1:policy/a"] ["post1"] "bad" rfl (by decide) (by decide) rfl
  simpa using h

/-- The put loop issues exactly one put per inline-policy entry, in order,
regardless of outcomes. -/
theorem createInlinePoliciesLoop_calls (env : Env) (n : String) :
    ∀ l : List InlinePolicySpec,
      (createInlinePoliciesLoop env n l).2 = l.map fun p => Call.putRolePolicy n p.name p.value := by
  intro l
  induction l with
  | nil => rfl
  | cons p rest ih => simp [createInlinePoliciesLoop, ih]

/-- When every put succeeds the put loop collects no error. -/
theorem createInlinePoliciesLoop_ok (env : Env) (n : String) :
    ∀ l : List InlinePolicySpec, (∀ p ∈ l, env.putRolePolicyOk p.name = true) →
      (createInlinePoliciesLoop env n l).1 = [] := by
  intro l
  induction l with
  | nil => intro _; rfl
  | cons p rest ih =>
    intro h
    have hp := h p (by simp)
    have hr := ih fun q hq => h q (by simp [hq])
    simp [createInlinePoliciesLoop, hp, hr]

/-- `createInlinePolicies` puts exactly the spec's inline-policy entries. -/
theorem createInlinePolicies_calls (env : Env) (role : IAMRole) :
    (createInlinePolicies env role).2 =
      role.spec.inlinePolicy.map fun p => Call.putRolePolicy role.name p.name p.value := by
  simp [createInlinePolicies, createInlinePoliciesLoop_calls]

/-- When every put succeeds `createInlinePolicies` reports no error. -/
theorem createInlinePolicies_ok (env : Env) (role : IAMRole)
    (h : ∀ p ∈ role.spec.inlinePolicy, env.putRolePolicyOk p.name = true) :
    (createInlinePolicies env role).1 = none := by
  simp [createInlinePolicies, createInlinePoliciesLoop_ok env role.name role.spec.inlinePolicy h]

/-- A successful trust update issues its call exactly when the documents
differ. -/
theorem updateTrustStep_ok (env : Env) (role : IAMRole) (awsRole : AwsRole)
    (h3 : env.updateAssumeRolePolicyOk = true) (acc : List Call) :
    updateTrustStep env role awsRole acc =
      (none, acc ++ if awsRole.assumeRolePolicyDocument = role.spec.trustRelationship then []
                    else [Call.updateAssumeRolePolicy role.name role.spec.trustRelationship]) := by
  by_cases hc : awsRole.assumeRolePolicyDocument = role.spec.trustRelationship <;>
    simp [updateTrustStep, hc, h3]

/-- Successful duration and trust updates issue their calls exactly when the
corresponding values differ. -/
theorem updateDurationStep_ok (env : Env) (role : IAMRole) (awsRole : AwsRole)
    (h2 : env.updateRoleOk = true) (h3 : env.updateAssumeRolePolicyOk = true) (acc : List Call) :
    updateDurationStep env role awsRole acc =
      (none,
       (acc ++ (if awsRole.maxSessionDuration = role.spec.maxSessionDuration then []
                else [Call.updateRole role.name role.spec.maxSessionDuration])) ++
       (if awsRole.assumeRolePolicyDocument = role.spec.trustRelationship then []
        else [Call.updateAssumeRolePolicy role.name role.spec.trustRelationship])) := by
  by_cases hc : awsRole.maxSessionDuration = role.spec.maxSessionDuration <;>
    simp [updateDurationStep, hc, h2, updateTrustStep_ok env role awsRole h3]

/-- When all three updates succeed, the field-update stage passes and issues
exactly the calls for the differing fields, in source order. -/
theorem syncFieldUpdates_ok (env : Env) (role : IAMRole) (awsRole : AwsRole)
    (h1 : env.updateRoleDescriptionOk = true) (h2 : env.updateRoleOk = true)
    (h3 : env.updateAssumeRolePolicyOk = true) :
    syncFieldUpdates env role awsRole =
      (none,
       (if awsRole.description = role.spec.description then []
        else [Call.updateRoleDescription role.name role.spec.description]) ++
       (if awsRole.maxSessionDuration = role.spec.maxSessionDuration then []
        else [Call.updateRole role.name role.spec.maxSessionDuration]) ++
       (if awsRole.assumeRolePolicyDocument = role.spec.trustRelationship then []
        else [Call.updateAssumeRolePolicy role.name role.spec.trustRelationship])) := by
  by_cases hc : awsRole.description = role.spec.description <;>
    simp [syncFieldUpdates, updateDescriptionStep, hc, h1,
      updateDurationStep_ok env role awsRole h2 h3, List.append_assoc]

/-- Every call the trust step adds beyond its accumulator is a field
update. -/
theorem updateTrustStep_calls (env : Env) (role : IAMRole) (awsRole : AwsRole) (acc : List Call) :
    ∀ c ∈ (updateTrustStep env role awsRole acc).2, c ∈ acc ∨ c.isFieldUpdate = true := by
  intro c hc
  unfold updateTrustStep at hc
  split at hc
  · exact Or.inl hc
  · split at hc <;>
      rcases List.mem_append.mp hc with h | h <;>
      first
        | exact Or.inl h
        | (simp only [List.mem_singleton] at h; subst h; exact Or.inr rfl)

/-- Every call the duration step adds beyond its accumulator is a field
update. -/
theorem updateDurationStep_calls (env : Env) (role : IAMRole) (awsRole : AwsRole) (acc : List Call) :
    ∀ c ∈ (updateDurationStep env role awsRole acc).2, c ∈ acc ∨ c.isFieldUpdate = true := by
  intro c hc
  unfold updateDurationStep at hc
  split at hc
  · exact updateTrustStep_calls env role awsRole acc c hc
  · split at hc
    · rcases updateTrustStep_calls env role awsRole _ c hc with h | h
      · rcases List.mem_append.mp h with h | h
        · exact Or.inl h
        · simp only [List.mem_singleton] at h; subst h; exact Or.inr rfl
      · exact Or.inr h
    · rcases List.mem_append.mp hc with h | h
      · exact Or.inl h
      · simp only [List.mem_singleton] at h; subst h; exact Or.inr rfl

/-- Every call issued by the field-update stage is a field update. -/
theorem syncFieldUpdates_calls (env : Env) (role : IAMRole) (awsRole : AwsRole) :
    ∀ c ∈ (syncFieldUpdates env role awsRole).2, c.isFieldUpdate = true := by
  intro c hc
  unfold syncFieldUpdates updateDescriptionStep at hc
  have step : ∀ acc : List Call, c ∈ (updateDurationStep env role awsRole acc).2 →
      c ∈ acc ∨ c.isFieldUpdate = true := fun acc h => updateDurationStep_calls env role awsRole acc c h
  split at hc
  · rcases step [] hc with h | h
    · exact absurd h (List.not_mem_nil c)
    · exact h
  · split at hc
    · rcases step _ hc with h | h
      · rcases List.mem_append.mp h with h | h
        · exact absurd h (List.not_mem_nil c)
        · simp only [List.mem_singleton] at h; subst h; rfl
      · exact h
    · rcases List.mem_append.mp hc with h | h
      · exact absurd h (List.not_mem_nil c)
      · simp only [List.mem_singleton] at h; subst h; rfl

/-- A field-update call is not a policy or role mutation. -/
theorem Call.isFieldUpdate_not_mutates (c : Call) (h : c.isFieldUpdate = true) :
    c.mutates = false := by
  cases c <;> simp_all [Call.isFieldUpdate, Call.mutates]

/-- Appending preserves freedom from field-update calls. -/
theorem fieldFree_append {l₁ l₂ : List Call}
    (h₁ : ∀ c ∈ l₁, c.isFieldUpdate = false) (h₂ : ∀ c ∈ l₂, c.isFieldUpdate = false) :
    ∀ c ∈ l₁ ++ l₂, c.isFieldUpdate = false := by
  intro c hc
  rcases List.mem_append.mp hc with h | h
  exacts [h₁ c h, h₂ c h]

/-- The policy-synchronization stage never issues a field-update call. -/
theorem syncPolicies_calls (env : Env) (role : IAMRole) :
    ∀ c ∈ (syncPolicies env role).2, c.isFieldUpdate = false := by
  have hput : ∀ x ∈ (createInlinePolicies env role).2, Call.isFieldUpdate x = false := by
    rw [createInlinePolicies_calls]
    intro x hx
    rcases List.mem_map.mp hx with ⟨p, _, rfl⟩
    rfl
  have hatt : ∀ x ∈ (attachPolicies env role).2, Call.isFieldUpdate x = false := by
    intro x hx
    rcases attachPolicies_calls env role x hx with rfl | ⟨a, rfl⟩ <;> rfl
  intro c hc
  unfold syncPolicies at hc
  rcases hc1 : (createInlinePolicies env role).1 with _ | e1 <;> simp only [hc1] at hc
  · rcases hc2 : (listInlinePolicies env.inlinePages).1 with _ | names <;> simp only [hc2] at hc
    · simp only [List.mem_append, List.mem_map] at hc
      rcases hc with h | ⟨m, _, rfl⟩
      · exact hput c h
      · rfl
    · rcases hc3 : (listAttachedPolicies env.attachedPages).1 with _ | att <;> simp only [hc3] at hc
      · simp only [List.mem_append, List.mem_map] at hc
        rcases hc with ⟨⟨⟨h | ⟨m, _, rfl⟩⟩ | ⟨p, _, rfl⟩⟩ | h⟩ | ⟨m, _, rfl⟩
        · exact hput c h
        · rfl
        · rfl
        · exact hatt c h
        · rfl
      · simp only [List.mem_append, List.mem_map] at hc
        rcases hc with ⟨⟨⟨⟨h | ⟨m, _, rfl⟩⟩ | ⟨p, _, rfl⟩⟩ | h⟩ | ⟨m, _, rfl⟩⟩ | ⟨p, _, rfl⟩
        · exact hput c h
        · rfl
        · rfl
        · exact hatt c h
        · rfl
        · rfl
  · exact hput c hc

/-- The only error `createInlinePolicies` can report is an aggregate. -/
theorem createInlinePolicies_err (env : Env) (role : IAMRole) (e : Err)
    (h : (createInlinePolicies env role).1 = some e) : ∃ l, e = Err.aggregateErr l := by
  simp only [createInlinePolicies] at h
  split at h
  · exact absurd h (by simp)
  · exact ⟨_, (Option.some.inj h).symm⟩

/-- The policy-synchronization stage never reports a field-update error: its
errors are listing failures or aggregates. -/
theorem syncPolicies_err (env : Env) (role : IAMRole) (e : Err)
    (h : (syncPolicies env role).1 = some e) :
    e = Err.listInlineErr ∨ e = Err.listAttachedErr ∨ ∃ l, e = Err.aggregateErr l := by
  unfold syncPolicies at h
  rcases hc1 : (createInlinePolicies env role).1 with _ | e1 <;> simp only [hc1] at h
  · rcases hc2 : (listInlinePolicies env.inlinePages).1 with _ | names <;> simp only [hc2] at h
    · exact Or.inl (Option.some.inj h).symm
    · rcases hc3 : (listAttachedPolicies env.attachedPages).1 with _ | att <;> simp only [hc3] at h
      · exact Or.inr (Or.inl (Option.some.inj h).symm)
      · refine Or.inr (Or.inr ?_)
        split at h
        · exact absurd h (by simp)
        · exact ⟨_, (Option.some.inj h).symm⟩
  · obtain rfl : e1 = e := Option.some.inj h
    exact Or.inr (Or.inr (createInlinePolicies_err env role e1 hc1))

/-- Full call trace of the policy-synchronization stage when the puts and both
listings succeed. -/
theorem syncPolicies_success_shape (env : Env) (role : IAMRole)
    (names : List String) (attached : List AttachedPolicy)
    (hput : ∀ p ∈ role.spec.inlinePolicy, env.putRolePolicyOk p.name = true)
    (hin : (listInlinePolicies env.inlinePages).1 = some names)
    (hatt : (listAttachedPolicies env.attachedPages).1 = some attached) :
    (syncPolicies env role).2 =
      (createInlinePolicies env role).2 ++
      ((listInlinePolicies env.inlinePages).2.map (Call.listRolePolicies role.name) ++
      (((names.filter fun p => !(inList (role.spec.inlinePolicy.map InlinePolicySpec.name) p)).map
        (Call.deleteRolePolicy role.name)) ++
      ((attachPolicies env role).2 ++
      ((listAttachedPolicies env.attachedPages).2.map (Call.listAttachedRolePolicies role.name) ++
      ((attached.filter fun p =>
          !(inList role.spec.policies p.policyArn) && !(inList role.spec.policies p.policyName)).map
        fun p => Call.detachRolePolicy role.name p.policyArn))))) := by
  unfold syncPolicies
  simp only [createInlinePolicies_ok env role hput, hin, hatt, List.append_assoc]

/-- Full call trace of the policy-synchronization stage when the puts and the
inline listing succeed but the attached listing fails. -/
theorem syncPolicies_attfail_shape (env : Env) (role : IAMRole)
    (names : List String)
    (hput : ∀ p ∈ role.spec.inlinePolicy, env.putRolePolicyOk p.name = true)
    (hin : (listInlinePolicies env.inlinePages).1 = some names)
    (hatt : (listAttachedPolicies env.attachedPages).1 = none) :
    (syncPolicies env role).2 =
      (createInlinePolicies env role).2 ++
      ((listInlinePolicies env.inlinePages).2.map (Call.listRolePolicies role.name) ++
      (((names.filter fun p => !(inList (role.spec.inlinePolicy.map InlinePolicySpec.name) p)).map
        (Call.deleteRolePolicy role.name)) ++
      ((attachPolicies env role).2 ++
      (listAttachedPolicies env.attachedPages).2.map (Call.listAttachedRolePolicies role.name)))) := by
  unfold syncPolicies
  simp only [createInlinePolicies_ok env role hput, hin, hatt, List.append_assoc]

/-- Trace of `SyncIAMRole` when the role read succeeds and all three field
updates succeed whenever attempted: the role read, the update calls for
exactly the differing fields, then the policy-synchronization trace. -/
theorem SyncIAMRole_ok_trace (env : Env) (role : IAMRole) (awsRole : AwsRole)
    (hg : env.getRole = some awsRole)
    (h1 : env.updateRoleDescriptionOk = true) (h2 : env.updateRoleOk = true)
    (h3 : env.updateAssumeRolePolicyOk = true) :
    SyncIAMRole env role =
      ((syncPolicies env role).1,
       Call.getRole role.name ::
         (((if awsRole.description = role.spec.description then []
            else [Call.updateRoleDescription role.name role.spec.description]) ++
           (if awsRole.maxSessionDuration = role.spec.maxSessionDuration then []
            else [Call.updateRole role.name role.spec.maxSessionDuration]) ++
           (if awsRole.assumeRolePolicyDocument = role.spec.trustRelationship then []
            else [Call.updateAssumeRolePolicy role.name role.spec.trustRelationship])) ++
          (syncPolicies env role).2)) := by
  unfold SyncIAMRole
  simp only [hg, syncFieldUpdates_ok env role awsRole h1 h2 h3]

/-- C3: during sync (with a successful role read and successful updates), each
of the three field-update mutations is issued exactly when the spec value
differs from the remote value under exact comparison, and when all three
values agree no field-update call appears in the trace. -/
theorem sync_field_updates_iff (env : Env) (role : IAMRole) (awsRole : AwsRole)
    (hg : env.getRole = some awsRole)
    (h1 : env.updateRoleDescriptionOk = true) (h2 : env.updateRoleOk = true)
    (h3 : env.updateAssumeRolePolicyOk = true) :
    (Call.updateRoleDescription role.name role.spec.description ∈ (SyncIAMRole env role).2 ↔
      awsRole.description ≠ role.spec.description) ∧
    (Call.updateRole role.name role.spec.maxSessionDuration ∈ (SyncIAMRole env role).2 ↔
      awsRole.maxSessionDuration ≠ role.spec.maxSessionDuration) ∧
    (Call.updateAssumeRolePolicy role.name role.spec.trustRelationship ∈ (SyncIAMRole env role).2 ↔
      awsRole.assumeRolePolicyDocument ≠ role.spec.trustRelationship) ∧
    (awsRole.description = role.spec.description →
     awsRole.maxSessionDuration = role.spec.maxSessionDuration →
     awsRole.assumeRolePolicyDocument = role.spec.trustRelationship →
     ∀ c ∈ (SyncIAMRole env role).2, c.isFieldUpdate = false) := by
  have htr := SyncIAMRole_ok_trace env role awsRole hg h1 h2 h3
  have hsp := syncPolicies_calls env role
  have hnd : Call.updateRoleDescription role.name role.spec.description ∉
      (syncPolicies env role).2 := fun hmem => by simpa [Call.isFieldUpdate] using hsp _ hmem
  have hnr : Call.updateRole role.name role.spec.maxSessionDuration ∉
      (syncPolicies env role).2 := fun hmem => by simpa [Call.isFieldUpdate] using hsp _ hmem
  have hna : Call.updateAssumeRolePolicy role.name role.spec.trustRelationship ∉
      (syncPolicies env role).2 := fun hmem => by simpa [Call.isFieldUpdate] using hsp _ hmem
  refine ⟨?_, ?_, ?_, ?_⟩
  · simp only [htr]
    by_cases hd : awsRole.description = role.spec.description <;>
      by_cases hm : awsRole.maxSessionDuration = role.spec.maxSessionDuration <;>
      by_cases ht : awsRole.assumeRolePolicyDocument = role.spec.trustRelationship <;>
      simp [hd, hm, ht, hnd]
  · simp only [htr]
    by_cases hd : awsRole.description = role.spec.description <;>
      by_cases hm : awsRole.maxSessionDuration = role.spec.maxSessionDuration <;>
      by_cases ht : awsRole.assumeRolePolicyDocument = role.spec.trustRelationship <;>
      simp [hd, hm, ht, hnr]
  · simp only [htr]
    by_cases hd : awsRole.description = role.spec.description <;>
      by_cases hm : awsRole.maxSessionDuration = role.spec.maxSessionDuration <;>
      by_cases ht : awsRole.assumeRolePolicyDocument = role.spec.trustRelationship <;>
      simp [hd, hm, ht, hna]
  · intro e1 e2 e3 c hc
    simp only [htr] at hc
    simp [e1, e2, e3] at hc
    rcases hc with rfl | hc
    · rfl
    · exact hsp c hc

/-- Remote role state used by the sync witnesses: every field differs from the
spec of `roleSync`. -/
def awsRoleRemote : AwsRole :=
  { description := "descR", maxSessionDuration := 3600, assumeRolePolicyDocument := "trustR" }

/-- Desired-state document used by the sync witnesses. -/
def roleSync : IAMRole :=
  { name := "r",
    spec := { description := "descS", path := "/", maxSessionDuration := 7200,
              trustRelationship := "trustS",
              inlinePolicy := [{ name := "ip1", value := "doc1" }],
              policies := ["arn:aws:iam::1:policy/keep"] },
    status := { arn := "", roleID := "" } }

/-- Environment used by the sync witnesses: one remote inline policy is stale,
one attached policy matches the spec by canonical identifier, one matches
neither field. -/
def envSync : Env :=
  { getRole := some awsRoleRemote, updateRoleDescriptionOk := true, updateRoleOk := true,
    updateAssumeRolePolicyOk := true, putRolePolicyOk := fun _ => true,
    deleteRolePolicyOk := fun _ => true,
    inlinePages := [{ items := ["ip1", "stale"], isTruncated := false, marker := "" }],
    attachedPages := [{ items := [{ policyArn := "arn:aws:iam::1:policy/keep", policyName := "keep" },
                                  { policyArn := "arnGone", policyName := "gone" }],
                        isTruncated := false, marker := "" }],
    callerIdentity := some "123", attachRolePolicyOk := fun _ => true,
    detachRolePolicyOk := fun _ => true, createRole := some ("arnNew", "idNew"),
    deleteRoleOk := true, storeUpdateOk := true }

/-- Sync environment whose description update fails. -/
def envSyncDescFail : Env := { envSync with updateRoleDescriptionOk := false }

/-- Witness for C3: the remote description differs from the spec, so the
description update call is issued. -/
theorem sync_field_updates_iff_witness :
    Call.updateRoleDescription "r" "descS" ∈ (SyncIAMRole envSync roleSync).2 := by
  have h := sync_field_updates_iff envSync roleSync awsRoleRemote rfl rfl rfl rfl
  exact h.1.mpr (by decide)

/-- C4: whenever sync surfaces one of the three field-update errors, the trace
contains no policy or role mutation: the failing field update aborted the sync
before any put, delete, attach or detach was attempted. -/
theorem sync_aborts_on_field_update_failure (env : Env) (role : IAMRole) (e : Err) (tr : List Call)
    (h : SyncIAMRole env role = (some e, tr))
    (he : e = Err.updateRoleDescriptionErr ∨ e = Err.updateRoleErr ∨
          e = Err.updateAssumeRolePolicyErr) :
    ∀ c ∈ tr, c.mutates = false := by
  unfold SyncIAMRole at h
  rcases hg : env.getRole with _ | awsRole <;> simp only [hg] at h
  · injection h with h1 h2
    obtain rfl : Err.getRoleErr = e := Option.some.inj h1
    rcases he with h' | h' | h' <;> exact Err.noConfusion h'
  · rcases hf : (syncFieldUpdates env role awsRole).1 with _ | e2 <;> simp only [hf] at h
    · injection h with h1 h2
      rcases syncPolicies_err env role e h1 with rfl | rfl | ⟨l, rfl⟩ <;>
        rcases he with h' | h' | h' <;> exact Err.noConfusion h'
    · injection h with h1 h2
      obtain rfl : e2 = e := Option.some.inj h1
      subst h2
      intro c hc
      rcases List.mem_cons.mp hc with rfl | hc
      · rfl
      · exact Call.isFieldUpdate_not_mutates c (syncFieldUpdates_calls env role awsRole c hc)

/-- Witness for C4: with a failing description update, sync stops after the
role read and the description-update attempt; neither issued call is a
mutation. -/
theorem sync_aborts_on_field_update_failure_witness :
    (Call.getRole "r").mutates = false ∧
    (Call.updateRoleDescription "r" "descS").mutates = false := by
  have h := sync_aborts_on_field_update_failure envSyncDescFail roleSync
    Err.updateRoleDescriptionErr [Call.getRole "r", Call.updateRoleDescription "r" "descS"]
    rfl (Or.inl rfl)
  exact ⟨h _ (by simp), h _ (by simp)⟩

/-- The attach category issues no detach calls. -/
theorem attachPolicies_no_detach (env : Env) (role : IAMRole) :
    ((attachPolicies env role).2).filter Call.isDetach = [] := by
  refine List.filter_eq_nil_iff.mpr fun c hc => ?_
  rcases attachPolicies_calls env role c hc with rfl | ⟨a, rfl⟩ <;> simp [Call.isDetach]

/-- The attach category issues no inline-policy deletions. -/
theorem attachPolicies_no_inline_delete (env : Env) (role : IAMRole) :
    ((attachPolicies env role).2).filter Call.isInlineDelete = [] := by
  refine List.filter_eq_nil_iff.mpr fun c hc => ?_
  rcases attachPolicies_calls env role c hc with rfl | ⟨a, rfl⟩ <;> simp [Call.isInlineDelete]

/-- C5: during a sync whose reads, field updates, puts and listings succeed,
the detach calls issued are exactly those for the attached policies whose
canonical identifier and short name both fail to match every entry of the
spec's managed-policy reference list, in listing order; a policy matching on
either field is left attached. -/
theorem sync_detach_iff_unmatched (env : Env) (role : IAMRole) (awsRole : AwsRole)
    (names : List String) (attached : List AttachedPolicy)
    (hg : env.getRole = some awsRole)
    (h1 : env.updateRoleDescriptionOk = true) (h2 : env.updateRoleOk = true)
    (h3 : env.updateAssumeRolePolicyOk = true)
    (hput : ∀ p ∈ role.spec.inlinePolicy, env.putRolePolicyOk p.name = true)
    (hin : (listInlinePolicies env.inlinePages).1 = some names)
    (hatt : (listAttachedPolicies env.attachedPages).1 = some attached) :
    ((SyncIAMRole env role).2).filter Call.isDetach =
      (attached.filter fun p =>
        !(inList role.spec.policies p.policyArn) && !(inList role.spec.policies p.policyName)).map
        fun p => Call.detachRolePolicy role.name p.policyArn := by
  have htr := SyncIAMRole_ok_trace env role awsRole hg h1 h2 h3
  have hshape := syncPolicies_success_shape env role names attached hput hin hatt
  simp only [htr, hshape]
  by_cases hd : awsRole.description = role.spec.description <;>
    by_cases hm : awsRole.maxSessionDuration = role.spec.maxSessionDuration <;>
    by_cases ht : awsRole.assumeRolePolicyDocument = role.spec.trustRelationship <;>
    simp [hd, hm, ht, createInlinePolicies_calls, List.filter_append, List.filter_cons,
      List.filter_map, Function.comp_def, Call.isDetach, attachPolicies_no_detach]

/-- Witness for C5: of the two attached policies, the one matching the spec by
canonical identifier stays attached and the unmatched one is detached. -/
theorem sync_detach_iff_unmatched_witness :
    ((SyncIAMRole envSync roleSync).2).filter Call.isDetach =
      [Call.detachRolePolicy "r" "arnGone"] := by
  have h := sync_detach_iff_unmatched envSync roleSync awsRoleRemote ["ip1", "stale"]
    [{ policyArn := "arn:aws:iam::1:policy/keep", policyName := "keep" },
     { policyArn := "arnGone", policyName := "gone" }]
    rfl rfl rfl rfl (by decide) rfl rfl
  rw [h]
  rfl

/-- Every put of `createInlinePolicies` appears in the policy-stage trace. -/
theorem syncPolicies_has_puts (env : Env) (role : IAMRole) :
    ∀ c ∈ (createInlinePolicies env role).2, c ∈ (syncPolicies env role).2 := by
  intro c hc
  unfold syncPolicies
  rcases hc1 : (createInlinePolicies env role).1 with _ | e1 <;> simp only [hc1]
  · rcases hc2 : (listInlinePolicies env.inlinePages).1 with _ | names <;> simp only [hc2]
    · exact List.mem_append_left _ hc
    · rcases hc3 : (listAttachedPolicies env.attachedPages).1 with _ | att <;>
        simp only [hc3] <;> simp [List.mem_append, hc]
  · exact hc

/-- C9: during a sync whose reads, field updates, puts and inline listing
succeed, every inline-policy entry of the spec is put, and the inline
deletions issued are exactly those listed names absent from the spec's
inline-policy name set, in listing order. -/
theorem sync_inline_puts_and_deletes (env : Env) (role : IAMRole) (awsRole : AwsRole)
    (names : List String)
    (hg : env.getRole = some awsRole)
    (h1 : env.updateRoleDescriptionOk = true) (h2 : env.updateRoleOk = true)
    (h3 : env.updateAssumeRolePolicyOk = true)
    (hput : ∀ p ∈ role.spec.inlinePolicy, env.putRolePolicyOk p.name = true)
    (hin : (listInlinePolicies env.inlinePages).1 = some names) :
    (∀ p ∈ role.spec.inlinePolicy,
       Call.putRolePolicy role.name p.name p.value ∈ (SyncIAMRole env role).2) ∧
    ((SyncIAMRole env role).2).filter Call.isInlineDelete =
      (names.filter fun n => !(inList (role.spec.inlinePolicy.map InlinePolicySpec.name) n)).map
        (Call.deleteRolePolicy role.name) := by
  have htr := SyncIAMRole_ok_trace env role awsRole hg h1 h2 h3
  constructor
  · intro p hp
    have hmem : Call.putRolePolicy role.name p.name p.value ∈ (createInlinePolicies env role).2 := by
      rw [createInlinePolicies_calls]
      exact List.mem_map.mpr ⟨p, hp, rfl⟩
    have hmem2 := syncPolicies_has_puts env role _ hmem
    simp only [htr]
    simp [List.mem_append, hmem2]
  · rcases hatt : (listAttachedPolicies env.attachedPages).1 with _ | att
    · have hshape := syncPolicies_attfail_shape env role names hput hin hatt
      simp only [htr, hshape]
      by_cases hd : awsRole.description = role.spec.description <;>
        by_cases hm : awsRole.maxSessionDuration = role.spec.maxSessionDuration <;>
        by_cases ht : awsRole.assumeRolePolicyDocument = role.spec.trustRelationship <;>
        simp [hd, hm, ht, createInlinePolicies_calls, List.filter_append, List.filter_cons,
          List.filter_map, Function.comp_def, Call.isInlineDelete, attachPolicies_no_inline_delete]
    · have hshape := syncPolicies_success_shape env role names att hput hin hatt
      simp only [htr, hshape]
      by_cases hd : awsRole.description = role.spec.description <;>
        by_cases hm : awsRole.maxSessionDuration = role.spec.maxSessionDuration <;>
        by_cases ht : awsRole.assumeRolePolicyDocument = role.spec.trustRelationship <;>
        simp [hd, hm, ht, createInlinePolicies_calls, List.filter_append, List.filter_cons,
          List.filter_map, Function.comp_def, Call.isInlineDelete, attachPolicies_no_inline_delete]

/-- Witness for C9: the spec's inline policy is put, and the stale remote
inline policy is the one deletion. -/
theorem sync_inline_puts_and_deletes_witness :
    Call.putRolePolicy "r" "ip1" "doc1" ∈ (SyncIAMRole envSync roleSync).2 ∧
    ((SyncIAMRole envSync roleSync).2).filter Call.isInlineDelete =
      [Call.deleteRolePolicy "r" "stale"] := by
  have h := sync_inline_puts_and_deletes envSync roleSync awsRoleRemote ["ip1", "stale"]
    rfl rfl rfl rfl (by decide) rfl
  refine ⟨h.1 { name := "ip1", value := "doc1" } (by simp [roleSync]), ?_⟩
  rw [h.2]
  rfl

/-- C7: teardown proceeds in order — the inline-policy removal calls, then one
attached-policy listing, then one detach per listed policy, then the role
deletion, which is always attempted; and when any detach fails the returned
error is the aggregate of exactly the detach failures. -/
theorem delete_role_teardown (env : Env) (role : IAMRole)
    (page : Page AttachedPolicy) (rest : List (Page AttachedPolicy))
    (hl : env.attachedPages = page :: rest) :
    (DeleteIAMRole env role).2 =
      (removeInlinePolicies env role).2 ++
        ([Call.listAttachedRolePolicies role.name none] ++
          (page.items.map (fun q => Call.detachRolePolicy role.name q.policyArn) ++
            [Call.deleteRole role.name])) ∧
    Call.deleteRole role.name ∈ (DeleteIAMRole env role).2 ∧
    ((page.items.filter fun q => !(env.detachRolePolicyOk q.policyArn)) ≠ [] →
      (DeleteIAMRole env role).1 =
        some (Err.aggregateErr
          ((page.items.filter fun q => !(env.detachRolePolicyOk q.policyArn)).map
            fun q => Err.detachRolePolicyErr q.policyArn))) := by
  refine ⟨?_, ?_, ?_⟩
  · unfold DeleteIAMRole
    simp only [hl]
    simp [List.append_assoc]
  · unfold DeleteIAMRole
    simp only [hl]
    simp
  · intro hne
    obtain ⟨q, qs, hq⟩ : ∃ q qs,
        (page.items.filter fun q => !(env.detachRolePolicyOk q.policyArn)) = q :: qs := by
      rcases hf : (page.items.filter fun q => !(env.detachRolePolicyOk q.policyArn)) with _ | ⟨a, as⟩
      · exact absurd hf hne
      · exact ⟨a, as, hf⟩
    unfold DeleteIAMRole
    simp only [hl]
    simp [hq]

/-- Environment for the teardown witness: one inline policy, two attached
policies of which the first fails to detach. -/
def envTeardown : Env :=
  { envSync with
    inlinePages := [{ items := ["x"], isTruncated := false, marker := "" }],
    attachedPages := [{ items := [{ policyArn := "a1", policyName := "n1" },
                                  { policyArn := "a2", policyName := "n2" }],
                        isTruncated := false, marker := "" }],
    detachRolePolicyOk := fun a => a == "a2" }

/-- Witness for C7: the failing detach is aggregated into the returned error
while the role deletion is still attempted. -/
theorem delete_role_teardown_witness :
    Call.deleteRole "r" ∈ (DeleteIAMRole envTeardown roleSync).2 ∧
    (DeleteIAMRole envTeardown roleSync).1 =
      some (Err.aggregateErr [Err.detachRolePolicyErr "a1"]) := by
  have h := delete_role_teardown envTeardown roleSync
    { items := [{ policyArn := "a1", policyName := "n1" },
                { policyArn := "a2", policyName := "n2" }],
      isTruncated := false, marker := "" } [] rfl
  refine ⟨h.2.1, ?_⟩
  have h3 := h.2.2 (by decide)
  rw [h3]
  rfl

/-- C8: the orchestrator persists status back to the store exactly when the
create path fully succeeds — on any creation failure the error is surfaced and
no store update happens — and the sync path neither updates the store nor
touches the status fields. -/
theorem create_status_persisted_only_on_success (env : Env) (role : IAMRole)
    (awsRole : AwsRole) (e : Err) :
    (env.getRole = none → (CreateIAMRole env role).1 = some e →
      (Reconcile env true role).err = some e ∧ (Reconcile env true role).storeUpdated = false) ∧
    (env.getRole = none → (CreateIAMRole env role).1 = none →
      (Reconcile env true role).storeUpdated = true ∧
      (Reconcile env true role).role = (CreateIAMRole env role).2.1) ∧
    (env.getRole = some awsRole →
      (Reconcile env true role).storeUpdated = false ∧
      (Reconcile env true role).role.status = role.status) := by
  refine ⟨fun hg hc => ?_, fun hg hc => ?_, fun hg => ?_⟩
  · unfold Reconcile
    simp [hg, hc]
  · unfold Reconcile
    simp [hg, hc]
  · unfold Reconcile
    simp [hg]

/-- Environment in which the role is absent remotely and creation fails. -/
def envCreateFail : Env := { envSync with getRole := none, createRole := none }

/-- Environment in which the role is absent remotely and creation succeeds. -/
def envCreateOk : Env := { envSync with getRole := none }

/-- Witness for C8: a failed creation surfaces its error without a store
update, a successful creation updates the store, and the sync path leaves the
status untouched with no store update. -/
theorem create_status_persisted_witness :
    (Reconcile envCreateFail true roleSync).err = some Err.createRoleErr ∧
    (Reconcile envCreateFail true roleSync).storeUpdated = false ∧
    (Reconcile envCreateOk true roleSync).storeUpdated = true ∧
    (Reconcile envSync true roleSync).storeUpdated = false ∧
    (Reconcile envSync true roleSync).role.status = roleSync.status := by
  have h1 := (create_status_persisted_only_on_success envCreateFail roleSync awsRoleRemote
    Err.createRoleErr).1 rfl rfl
  have h2 := (create_status_persisted_only_on_success envCreateOk roleSync awsRoleRemote
    Err.createRoleErr).2.1 rfl rfl
  have h3 := (create_status_persisted_only_on_success envSync roleSync awsRoleRemote
    Err.createRoleErr).2.2 rfl
  exact ⟨h1.1, h1.2, h2.1, h3.1, h3.2⟩
